import Mathlib

/-!
Shallow embedding of `protocols/dcutr/src/behaviour.rs` from rust-libp2p:
the DCUtR (Direct Connection Upgrade through Relay) `Behaviour`, a
`NetworkBehaviour` holding a FIFO queue of actions that it fills from the
connection-manager callbacks and drains in `poll`.

Identifiers (`PeerId`, `ConnectionId`) are opaque in the source and are
modelled as natural numbers.  A `Multiaddr` is the ordered list of its
protocol components; the behaviour only inspects whether a component is
`P2pCircuit` and appends `P2p(peer_id)` components, so all other
components are collapsed into an `other` constructor.  Calls whose Rust
body can panic (`expect`, `todo!`) are modelled as `Option`-returning
functions, `none` standing for the panic.
-/

namespace Dcutr

abbrev PeerId := Nat

abbrev ConnectionId := Nat

/-- One component of a multiaddress.  The behaviour distinguishes only the
`P2pCircuit` marker and `P2p` peer-id components; every other component
kind is abstracted as `other`. -/
inductive Protocol where
  | P2pCircuit : Protocol
  | P2p (peer : PeerId) : Protocol
  | other (tag : Nat) : Protocol
deriving DecidableEq, Repr

/-- A multiaddress: the ordered sequence of its protocol components.
`Multiaddr::with` in the source appends one component at the end. -/
abbrev Multiaddr := List Protocol

/-- `ConnectedPoint` from libp2p-core: how a connection was established. -/
inductive ConnectedPoint where
  | Dialer (address : Multiaddr) : ConnectedPoint
  | Listener (local_addr : Multiaddr) (send_back_addr : Multiaddr) : ConnectedPoint
deriving DecidableEq, Repr

/-- Modelled from the spec: `handler::Role` — the role a handler plays in
one upgrade attempt (the handler module is outside the provided sources;
the behaviour constructs and matches exactly these variants). -/
inductive Role where
  | Initiator (attempt : Nat) (relay_connection_id : ConnectionId) : Role
  | Listener : Role
deriving DecidableEq, Repr

/-- Modelled from the spec: `handler::Prototype` — the handler prototype a
new connection starts from. -/
inductive Prototype where
  | UnknownConnection : Prototype
  | DirectConnection (role : Role) : Prototype
  | UnknownRelayedConnection : Prototype
  | RelayedConnection (role : Role) : Prototype
deriving DecidableEq, Repr

/-- Modelled from the spec: `handler::In` — commands the behaviour sends to
a handler.  `inbound_connect` is an opaque pending-connect token. -/
inductive HandlerIn where
  | Connect (obs_addrs : List Multiaddr) (attempt : Nat) : HandlerIn
  | AcceptInboundConnect (inbound_connect : Nat) (obs_addrs : List Multiaddr) : HandlerIn
deriving DecidableEq, Repr

/-- Modelled from the spec: `handler::Event` — events a handler reports to
the behaviour.  In the source the behaviour receives
`Either<handler::Event, void>`; the `Right` arm is uninhabited
(`void::unreachable`), so only the `Left` payload is modelled. -/
inductive HandlerEvent where
  | InboundConnectReq (inbound_connect : Nat) (remote_addr : Multiaddr) : HandlerEvent
  | InboundConnectNeg (remote_addrs : List Multiaddr) : HandlerEvent
  | OutboundConnectNeg (remote_addrs : List Multiaddr) (attempt : Nat) : HandlerEvent
deriving DecidableEq, Repr

/-- The events produced by the `Behaviour` (`Event` in behaviour.rs). -/
inductive Event where
  | InitiateDirectConnectionUpgrade (remote_peer_id : PeerId)
      (local_relayed_addr : Multiaddr) : Event
  | RemoteInitiatedDirectConnectionUpgrade (remote_peer_id : PeerId)
      (remote_relayed_addr : Multiaddr) : Event
  | DirectConnectionUpgradeSucceeded : Event
  | DirectConnectionUpgradeFailed (remote_peer_id : PeerId) : Event
deriving DecidableEq, Repr

/-- `dial_opts::PeerCondition`. The behaviour always builds `Always`. -/
inductive PeerCondition where
  | Disconnected : PeerCondition
  | NotDialing : PeerCondition
  | Always : PeerCondition
deriving DecidableEq, Repr

/-- `DialOpts` as built by
`DialOpts::peer_id(p).addresses(addrs).condition(c).build()`. -/
structure DialOpts where
  peer_id : PeerId
  addresses : List Multiaddr
  condition : PeerCondition
deriving DecidableEq, Repr

/-- `NotifyHandler`: which handler of a peer a notification targets.  The
behaviour only ever uses `One`. -/
inductive NotifyHandlerTarget where
  | One (id : ConnectionId) : NotifyHandlerTarget
  | Any : NotifyHandlerTarget
deriving DecidableEq, Repr

/-- `NetworkBehaviourAction` as used by this behaviour.  The handler
notification payload is `Either::Left` of `handler::In` in the source; the
right arm is uninhabited and is dropped. -/
inductive Action where
  | NotifyHandler (peer_id : PeerId) (handler : NotifyHandlerTarget)
      (event : HandlerIn) : Action
  | Dial (opts : DialOpts) (handler : Prototype) : Action
  | GenerateEvent (event : Event) : Action
deriving DecidableEq, Repr

/-- `DialError` is only received by reference and never inspected. -/
abbrev DialError := Nat

/-- The DCUtR `Behaviour`: a queue of actions to return when polled
(`VecDeque` in the source; the front of the list is the front of the
queue, `push_back` appends at the end). -/
structure Behaviour where
  queued_actions : List Action
deriving DecidableEq, Repr

namespace Behaviour

/-- `Behaviour::new` — the empty queue. -/
def new : Behaviour := { queued_actions := [] }

/-- `NetworkBehaviour::new_handler`. -/
def new_handler (_b : Behaviour) : Prototype := Prototype.UnknownConnection

/-- `NetworkBehaviour::addresses_of_peer`. -/
def addresses_of_peer (_b : Behaviour) (_peer_id : PeerId) : List Multiaddr := []

/-- `NetworkBehaviour::inject_connected` — empty body. -/
def inject_connected (b : Behaviour) (_peer_id : PeerId) : Behaviour := b

/-- `NetworkBehaviour::inject_connection_established`: on a `Listener`
connected point whose `local_addr` has a `P2pCircuit` component, push a
`Connect { obs_addrs: [], attempt: 1 }` notification for that connection
followed by an `InitiateDirectConnectionUpgrade` event; otherwise do
nothing. -/
def inject_connection_established (b : Behaviour) (peer_id : PeerId)
    (connection_id : ConnectionId) (connected_point : ConnectedPoint)
    (_failed_addresses : Option (List Multiaddr)) : Behaviour :=
  match connected_point with
  | ConnectedPoint.Listener local_addr _ =>
      if local_addr.any (fun p => p = Protocol.P2pCircuit) then
        { queued_actions := b.queued_actions ++
            [ Action.NotifyHandler peer_id (NotifyHandlerTarget.One connection_id)
                (HandlerIn.Connect [] 1),
              Action.GenerateEvent
                (Event.InitiateDirectConnectionUpgrade peer_id local_addr) ] }
      else b
  | _ => b

/-- `NetworkBehaviour::inject_dial_failure`: on a failed dial whose handler
prototype is `DirectConnection { role: Initiator { attempt, relay_connection_id } }`,
`expect` the peer id (panic — `none` — when absent), then either push a
retry `Connect` with `attempt + 1` to the relay connection when
`attempt < 3`, or push a `DirectConnectionUpgradeFailed` event; every
other prototype is ignored. -/
def inject_dial_failure (b : Behaviour) (peer_id : Option PeerId)
    (handler : Prototype) (_error : DialError) : Option Behaviour :=
  match handler with
  | Prototype.DirectConnection (Role.Initiator attempt relay_connection_id) =>
      match peer_id with
      | none => none
      | some p =>
          if attempt < 3 then
            some { queued_actions := b.queued_actions ++
              [ Action.NotifyHandler p (NotifyHandlerTarget.One relay_connection_id)
                  (HandlerIn.Connect [] (attempt + 1)) ] }
          else
            some { queued_actions := b.queued_actions ++
              [ Action.GenerateEvent (Event.DirectConnectionUpgradeFailed p) ] }
  | _ => some b

/-- `NetworkBehaviour::inject_disconnected` — the body is `todo!()`, an
unconditional panic. -/
def inject_disconnected (_b : Behaviour) (_peer : PeerId) : Option Behaviour :=
  none

/-- `NetworkBehaviour::inject_connection_closed` — the body is `todo!()`,
an unconditional panic. -/
def inject_connection_closed (_b : Behaviour) (_peer_id : PeerId)
    (_connection_id : ConnectionId) (_connected_point : ConnectedPoint) :
    Option Behaviour :=
  none

/-- `NetworkBehaviour::inject_event`: translate a handler event into
queued actions. `InboundConnectReq` pushes an `AcceptInboundConnect`
notification and a `RemoteInitiatedDirectConnectionUpgrade` event;
`InboundConnectNeg` and `OutboundConnectNeg` push a `Dial` with condition
`Always` and the matching `DirectConnection` handler prototype. -/
def inject_event (b : Behaviour) (event_source : PeerId)
    (connection : ConnectionId) (handler_event : HandlerEvent) : Behaviour :=
  match handler_event with
  | HandlerEvent.InboundConnectReq inbound_connect remote_addr =>
      { queued_actions := b.queued_actions ++
          [ Action.NotifyHandler event_source (NotifyHandlerTarget.One connection)
              (HandlerIn.AcceptInboundConnect inbound_connect []),
            Action.GenerateEvent
              (Event.RemoteInitiatedDirectConnectionUpgrade event_source remote_addr) ] }
  | HandlerEvent.InboundConnectNeg remote_addrs =>
      { queued_actions := b.queued_actions ++
          [ Action.Dial
              { peer_id := event_source
                addresses := remote_addrs
                condition := PeerCondition.Always }
              (Prototype.DirectConnection Role.Listener) ] }
  | HandlerEvent.OutboundConnectNeg remote_addrs attempt =>
      { queued_actions := b.queued_actions ++
          [ Action.Dial
              { peer_id := event_source
                addresses := remote_addrs
                condition := PeerCondition.Always }
              (Prototype.DirectConnection
                (Role.Initiator attempt connection)) ] }

end Behaviour

/-- `PollParameters` as consumed by `Behaviour::poll`: the current external
address records and the local peer id. -/
structure PollParameters where
  external_addresses : List Multiaddr
  local_peer_id : PeerId
deriving DecidableEq, Repr

/-- The obs-addrs fill expression of `Behaviour::poll`: every current
external address with a `P2p(local_peer_id)` component appended
(`a.addr.with(Protocol::P2p(local_peer_id))`). -/
def fillObsAddrs (pp : PollParameters) : List Multiaddr :=
  pp.external_addresses.map (fun a => a ++ [Protocol.P2p pp.local_peer_id])

/-- Result of one `poll` call: `Poll::Pending` or `Poll::Ready(action)`. -/
inductive PollResult where
  | Pending : PollResult
  | Ready (action : Action) : PollResult
deriving DecidableEq, Repr

namespace Behaviour

/-- `NetworkBehaviour::poll`: pop the front queued action if any; when it
is a handler notification carrying `Connect` or `AcceptInboundConnect`,
overwrite its `obs_addrs` with the current external addresses, each
suffixed with `P2p(local_peer_id)`; return `Pending` on an empty queue. -/
def poll (b : Behaviour) (pp : PollParameters) : PollResult × Behaviour :=
  match b.queued_actions with
  | [] => (PollResult.Pending, b)
  | a :: rest =>
      let a' :=
        match a with
        | Action.NotifyHandler p h (HandlerIn.Connect _ attempt) =>
            Action.NotifyHandler p h (HandlerIn.Connect (fillObsAddrs pp) attempt)
        | Action.NotifyHandler p h (HandlerIn.AcceptInboundConnect ic _) =>
            Action.NotifyHandler p h
              (HandlerIn.AcceptInboundConnect ic (fillObsAddrs pp))
        | other => other
      (PollResult.Ready a', { queued_actions := rest })

end Behaviour

/-- One callback invocation on the behaviour, as issued by the outer
connection manager (`swarm`).  This is the alphabet of traces over which
queue invariants are stated. -/
inductive Call where
  | connectionEstablished (peer_id : PeerId) (connection_id : ConnectionId)
      (connected_point : ConnectedPoint)
      (failed_addresses : Option (List Multiaddr)) : Call
  | dialFailure (peer_id : Option PeerId) (handler : Prototype)
      (error : DialError) : Call
  | handlerEvent (event_source : PeerId) (connection : ConnectionId)
      (ev : HandlerEvent) : Call
  | connected (peer_id : PeerId) : Call
  | disconnected (peer : PeerId) : Call
  | connectionClosed (peer_id : PeerId) (connection_id : ConnectionId)
      (connected_point : ConnectedPoint) : Call
  | pollBehaviour (pp : PollParameters) : Call
deriving DecidableEq, Repr

/-- Execute one callback on the behaviour.  `none` is a panic; a `poll`
call additionally yields the action it returned, if any. -/
def stepCall (b : Behaviour) : Call → Option (Behaviour × Option Action)
  | Call.connectionEstablished p cid cp fa =>
      some (b.inject_connection_established p cid cp fa, none)
  | Call.dialFailure pid h err =>
      (b.inject_dial_failure pid h err).map (fun b' => (b', none))
  | Call.handlerEvent es conn ev => some (b.inject_event es conn ev, none)
  | Call.connected p => some (b.inject_connected p, none)
  | Call.disconnected p => (b.inject_disconnected p).map (fun b' => (b', none))
  | Call.connectionClosed p cid cp =>
      (b.inject_connection_closed p cid cp).map (fun b' => (b', none))
  | Call.pollBehaviour pp =>
      match b.poll pp with
      | (PollResult.Pending, b') => some (b', none)
      | (PollResult.Ready a, b') => some (b', some a)

/-- Run a sequence of callbacks from a starting behaviour, collecting the
actions returned by the `poll` calls in order; `none` when some call
panicked. -/
def runCalls : Behaviour → List Call → Option (Behaviour × List Action)
  | b, [] => some (b, [])
  | b, c :: cs =>
      match stepCall b c with
      | none => none
      | some (b', oa) =>
          match runCalls b' cs with
          | none => none
          | some (bf, outs) => some (bf, oa.toList ++ outs)

/-- An action is benign for the attempt-range invariant unless it is a
handler notification carrying `Connect`, in which case its attempt must
lie in `[1, 3]`. -/
def connectAttemptInRange : Action → Bool
  | Action.NotifyHandler _ _ (HandlerIn.Connect _ attempt) =>
      1 ≤ attempt && attempt ≤ 3
  | _ => true

/-- Recognizer for the `GenerateEvent DirectConnectionUpgradeSucceeded`
action. -/
def isUpgradeSucceeded : Action → Bool
  | Action.GenerateEvent Event.DirectConnectionUpgradeSucceeded => true
  | _ => false

/-- Queue and output condition for the result of one callback: every
action still queued satisfies `P`, and so does the action a `poll` call
returned, if any; a panic (`none`) satisfies everything vacuously. -/
def optionResultOK (P : Action → Bool) :
    Option (Behaviour × Option Action) → Prop
  | none => True
  | some (b', none) => ∀ a ∈ b'.queued_actions, P a = true
  | some (b', some out) =>
      (∀ a ∈ b'.queued_actions, P a = true) ∧ P out = true

/-- C1: `inject_connection_established` enqueues exactly two actions in
order — a `Connect { obs_addrs: [], attempt: 1 }` notification to the
connection, then an `InitiateDirectConnectionUpgrade` event with the
peer id and `local_addr` — precisely when the connected point is a
`Listener` whose `local_addr` contains a `P2pCircuit` component; in every
other case the behaviour is unchanged. -/
theorem inject_connection_established_relayed_listener
    (b : Behaviour) (p : PeerId) (cid : ConnectionId)
    (cp : ConnectedPoint) (fa : Option (List Multiaddr)) :
    (∀ la sba, cp = ConnectedPoint.Listener la sba →
      la.any (fun q => q = Protocol.P2pCircuit) = true →
      (b.inject_connection_established p cid cp fa).queued_actions =
        b.queued_actions ++
          [ Action.NotifyHandler p (NotifyHandlerTarget.One cid)
              (HandlerIn.Connect [] 1),
            Action.GenerateEvent
              (Event.InitiateDirectConnectionUpgrade p la) ]) ∧
    ((∀ la sba, cp = ConnectedPoint.Listener la sba →
        la.any (fun q => q = Protocol.P2pCircuit) = false) →
      b.inject_connection_established p cid cp fa = b) := by
  constructor
  · intro la sba hcp hany
    subst hcp
    simp [Behaviour.inject_connection_established, hany]
  · intro h
    cases cp with
    | Dialer addr => rfl
    | Listener la sba =>
      simp [Behaviour.inject_connection_established, h la sba rfl]

/-- Witness for C1 at a concrete relayed listener connected point. -/
theorem inject_connection_established_relayed_listener_witness :
    (Behaviour.new.inject_connection_established 7 5
        (ConnectedPoint.Listener [Protocol.P2pCircuit] []) none).queued_actions =
      [ Action.NotifyHandler 7 (NotifyHandlerTarget.One 5) (HandlerIn.Connect [] 1),
        Action.GenerateEvent
          (Event.InitiateDirectConnectionUpgrade 7 [Protocol.P2pCircuit]) ] :=
  (inject_connection_established_relayed_listener Behaviour.new 7 5
      (ConnectedPoint.Listener [Protocol.P2pCircuit] []) none).1
    [Protocol.P2pCircuit] [] rfl (by decide)

/-- C2: `inject_dial_failure` with a `DirectConnection Initiator`
prototype and a present peer id enqueues exactly one retry
`Connect { obs_addrs: [], attempt: attempt + 1 }` to the relay connection
when `attempt < 3`, and otherwise exactly one
`DirectConnectionUpgradeFailed` event; every other prototype leaves the
queue unchanged. -/
theorem inject_dial_failure_initiator
    (b : Behaviour) (p : PeerId) (err : DialError)
    (attempt : Nat) (rcid : ConnectionId) :
    (attempt < 3 →
      b.inject_dial_failure (some p)
          (Prototype.DirectConnection (Role.Initiator attempt rcid)) err =
        some { queued_actions := b.queued_actions ++
          [ Action.NotifyHandler p (NotifyHandlerTarget.One rcid)
              (HandlerIn.Connect [] (attempt + 1)) ] }) ∧
    (3 ≤ attempt →
      b.inject_dial_failure (some p)
          (Prototype.DirectConnection (Role.Initiator attempt rcid)) err =
        some { queued_actions := b.queued_actions ++
          [ Action.GenerateEvent (Event.DirectConnectionUpgradeFailed p) ] }) ∧
    (∀ pid h, (∀ a r, h ≠ Prototype.DirectConnection (Role.Initiator a r)) →
      b.inject_dial_failure pid h err = some b) := by
  refine ⟨?_, ?_, ?_⟩
  · intro hlt
    simp [Behaviour.inject_dial_failure, hlt]
  · intro hge
    simp [Behaviour.inject_dial_failure, Nat.not_lt.mpr hge]
  · intro pid h hne
    cases h with
    | UnknownConnection => rfl
    | UnknownRelayedConnection => rfl
    | RelayedConnection r => rfl
    | DirectConnection r =>
      cases r with
      | Listener => rfl
      | Initiator a rc => exact absurd rfl (hne a rc)

/-- Witness for C2 at a concrete failed first attempt. -/
theorem inject_dial_failure_initiator_witness :
    Behaviour.new.inject_dial_failure (some 4)
        (Prototype.DirectConnection (Role.Initiator 1 9)) 0 =
      some { queued_actions :=
        [ Action.NotifyHandler 4 (NotifyHandlerTarget.One 9)
            (HandlerIn.Connect [] 2) ] } :=
  (inject_dial_failure_initiator Behaviour.new 4 0 1 9).1 (by decide)

/-- C5: the Dial actions enqueued by `inject_event` target the event
source, use condition `Always`, dial exactly `remote_addrs`, and carry
`DirectConnection Listener` for `InboundConnectNeg` respectively
`DirectConnection (Initiator attempt connection)` for
`OutboundConnectNeg`; the `InboundConnectReq` case enqueues no Dial. -/
theorem inject_event_dial_actions (b : Behaviour) (es : PeerId)
    (conn : ConnectionId) (addrs : List Multiaddr) (attempt : Nat)
    (ic : Nat) (ra : Multiaddr) :
    (b.inject_event es conn (HandlerEvent.InboundConnectNeg addrs)).queued_actions =
      b.queued_actions ++
        [ Action.Dial
            { peer_id := es, addresses := addrs, condition := PeerCondition.Always }
            (Prototype.DirectConnection Role.Listener) ] ∧
    (b.inject_event es conn
        (HandlerEvent.OutboundConnectNeg addrs attempt)).queued_actions =
      b.queued_actions ++
        [ Action.Dial
            { peer_id := es, addresses := addrs, condition := PeerCondition.Always }
            (Prototype.DirectConnection (Role.Initiator attempt conn)) ] ∧
    (∀ a ∈ (b.inject_event es conn
        (HandlerEvent.InboundConnectReq ic ra)).queued_actions,
      a ∉ b.queued_actions → ∀ opts hp, a ≠ Action.Dial opts hp) := by
  refine ⟨rfl, rfl, ?_⟩
  intro a ha hnot opts hp
  rcases List.mem_append.mp ha with hmem | hmem
  · exact absurd hmem hnot
  · simp only [List.mem_cons, List.not_mem_nil, or_false] at hmem
    rcases hmem with rfl | rfl <;> simp

/-- Witness for C5: the accept notification enqueued for an inbound
connect request is not a Dial. -/
theorem inject_event_dial_actions_witness :
    Action.NotifyHandler 3 (NotifyHandlerTarget.One 8)
        (HandlerIn.AcceptInboundConnect 0 []) ≠
      Action.Dial
        { peer_id := 3, addresses := [], condition := PeerCondition.Always }
        Prototype.UnknownConnection :=
  (inject_event_dial_actions Behaviour.new 3 8 [] 1 0 []).2.2
    (Action.NotifyHandler 3 (NotifyHandlerTarget.One 8)
      (HandlerIn.AcceptInboundConnect 0 []))
    (by simp [Behaviour.inject_event, Behaviour.new])
    (by simp [Behaviour.new]) _ _

/-- C6: `inject_event` on `InboundConnectReq` enqueues exactly two actions
in order — the `AcceptInboundConnect { inbound_connect, obs_addrs: [] }`
notification to the same peer and connection, then the
`RemoteInitiatedDirectConnectionUpgrade` event with the event source and
`remote_addr`. -/
theorem inject_event_inbound_connect_req (b : Behaviour) (es : PeerId)
    (conn : ConnectionId) (ic : Nat) (ra : Multiaddr) :
    (b.inject_event es conn
        (HandlerEvent.InboundConnectReq ic ra)).queued_actions =
      b.queued_actions ++
        [ Action.NotifyHandler es (NotifyHandlerTarget.One conn)
            (HandlerIn.AcceptInboundConnect ic []),
          Action.GenerateEvent
            (Event.RemoteInitiatedDirectConnectionUpgrade es ra) ] := rfl

/-- C7: a retry Connect notification is addressed to the
`relay_connection_id` stored in the failed Initiator prototype, and the
Initiator prototype stored in the Dial enqueued for `OutboundConnectNeg`
records exactly the connection id the event arrived on — so all retries of
an upgrade go over the same relayed connection. -/
theorem retry_reuses_relay_connection (b : Behaviour) (p : PeerId)
    (err : DialError) (attempt : Nat) (rcid : ConnectionId)
    (es : PeerId) (conn : ConnectionId) (addrs : List Multiaddr) :
    (attempt < 3 →
      b.inject_dial_failure (some p)
          (Prototype.DirectConnection (Role.Initiator attempt rcid)) err =
        some { queued_actions := b.queued_actions ++
          [ Action.NotifyHandler p (NotifyHandlerTarget.One rcid)
              (HandlerIn.Connect [] (attempt + 1)) ] }) ∧
    (b.inject_event es conn
        (HandlerEvent.OutboundConnectNeg addrs attempt)).queued_actions =
      b.queued_actions ++
        [ Action.Dial
            { peer_id := es, addresses := addrs, condition := PeerCondition.Always }
            (Prototype.DirectConnection (Role.Initiator attempt conn)) ] := by
  constructor
  · intro hlt
    simp [Behaviour.inject_dial_failure, hlt]
  · rfl

/-- Witness for C7 at a concrete second attempt. -/
theorem retry_reuses_relay_connection_witness :
    Behaviour.new.inject_dial_failure (some 6)
        (Prototype.DirectConnection (Role.Initiator 2 11)) 1 =
      some { queued_actions :=
        [ Action.NotifyHandler 6 (NotifyHandlerTarget.One 11)
            (HandlerIn.Connect [] 3) ] } :=
  (retry_reuses_relay_connection Behaviour.new 6 1 2 11 0 0 []).1 (by decide)

/-- C8 (amended): `inject_disconnected` and `inject_connection_closed`
never complete normally — their bodies are `todo!()`, an unconditional
panic — and no action is enqueued before the panic. -/
theorem inject_disconnected_closed_panic (b : Behaviour) (p : PeerId)
    (cid : ConnectionId) (cp : ConnectedPoint) :
    b.inject_disconnected p = none ∧
    b.inject_connection_closed p cid cp = none :=
  ⟨rfl, rfl⟩

/-- C8 counterexample: at a concrete peer and connection the calls do not
complete normally leaving the behaviour unchanged — they panic. -/
theorem inject_disconnected_panics_counterexample :
    Behaviour.new.inject_disconnected 0 ≠ some Behaviour.new ∧
    Behaviour.new.inject_connection_closed 0 0 (ConnectedPoint.Dialer []) ≠
      some Behaviour.new := by
  constructor <;> intro h <;> exact Option.noConfusion h

/-- C10: with an Initiator prototype a present peer id never panics and
the retry or failure action is enqueued; an absent peer id panics (the
`expect` on `peer_id`); every non-Initiator prototype is total regardless
of peer id. -/
theorem inject_dial_failure_totality (b : Behaviour) (err : DialError)
    (attempt : Nat) (rcid : ConnectionId) :
    (∀ p, ∃ b',
      b.inject_dial_failure (some p)
          (Prototype.DirectConnection (Role.Initiator attempt rcid)) err =
        some b' ∧
      (b'.queued_actions = b.queued_actions ++
          [ Action.NotifyHandler p (NotifyHandlerTarget.One rcid)
              (HandlerIn.Connect [] (attempt + 1)) ] ∨
       b'.queued_actions = b.queued_actions ++
          [ Action.GenerateEvent (Event.DirectConnectionUpgradeFailed p) ])) ∧
    (b.inject_dial_failure none
        (Prototype.DirectConnection (Role.Initiator attempt rcid)) err = none) ∧
    (∀ pid h, (∀ a r, h ≠ Prototype.DirectConnection (Role.Initiator a r)) →
      b.inject_dial_failure pid h err = some b) := by
  refine ⟨?_, rfl, ?_⟩
  · intro p
    by_cases hlt : attempt < 3
    · refine ⟨{ queued_actions := b.queued_actions ++
          [ Action.NotifyHandler p (NotifyHandlerTarget.One rcid)
              (HandlerIn.Connect [] (attempt + 1)) ] }, ?_, Or.inl rfl⟩
      simp [Behaviour.inject_dial_failure, hlt]
    · refine ⟨{ queued_actions := b.queued_actions ++
          [ Action.GenerateEvent (Event.DirectConnectionUpgradeFailed p) ] },
        ?_, Or.inr rfl⟩
      simp [Behaviour.inject_dial_failure, hlt]
  · intro pid h hne
    cases h with
    | UnknownConnection => rfl
    | UnknownRelayedConnection => rfl
    | RelayedConnection r => rfl
    | DirectConnection r =>
      cases r with
      | Listener => rfl
      | Initiator a rc => exact absurd rfl (hne a rc)

/-- Witness for C10: a non-Initiator prototype is total even without a
peer id. -/
theorem inject_dial_failure_totality_witness :
    Behaviour.new.inject_dial_failure none Prototype.UnknownConnection 0 =
      some Behaviour.new :=
  (inject_dial_failure_totality Behaviour.new 0 0 0).2.2 none
    Prototype.UnknownConnection (fun _ _ h => Prototype.noConfusion h)

/-- C4: `poll` returns `Pending` exactly on an empty queue; otherwise it
dequeues the front action and returns it, with the `obs_addrs` of a
`Connect` or `AcceptInboundConnect` notification replaced — whatever was
stored at enqueue time — by the poll-time external addresses, each with a
`P2p(local_peer_id)` component appended, so every filled address ends in
`P2p(local_peer_id)`. -/
theorem poll_dequeues_and_fills (b : Behaviour) (pp : PollParameters) :
    (b.queued_actions = [] → b.poll pp = (PollResult.Pending, b)) ∧
    (∀ p h oa att rest,
      b.queued_actions =
          Action.NotifyHandler p h (HandlerIn.Connect oa att) :: rest →
      b.poll pp =
        (PollResult.Ready
            (Action.NotifyHandler p h (HandlerIn.Connect (fillObsAddrs pp) att)),
         { queued_actions := rest })) ∧
    (∀ p h ic oa rest,
      b.queued_actions =
          Action.NotifyHandler p h (HandlerIn.AcceptInboundConnect ic oa) :: rest →
      b.poll pp =
        (PollResult.Ready
            (Action.NotifyHandler p h
              (HandlerIn.AcceptInboundConnect ic (fillObsAddrs pp))),
         { queued_actions := rest })) ∧
    (∀ a rest, b.queued_actions = a :: rest →
      (∀ p h oa att, a ≠ Action.NotifyHandler p h (HandlerIn.Connect oa att)) →
      (∀ p h ic oa,
        a ≠ Action.NotifyHandler p h (HandlerIn.AcceptInboundConnect ic oa)) →
      b.poll pp = (PollResult.Ready a, { queued_actions := rest })) ∧
    (∀ addr ∈ fillObsAddrs pp,
      addr.getLast? = some (Protocol.P2p pp.local_peer_id)) := by
  obtain ⟨q⟩ := b
  refine ⟨?_, ?_, ?_, ?_, ?_⟩
  · intro h
    cases h
    rfl
  · intro p h oa att rest hq
    cases hq
    rfl
  · intro p h ic oa rest hq
    cases hq
    rfl
  · intro a rest hq hne1 hne2
    cases hq
    cases a with
    | NotifyHandler p h hin =>
        cases hin with
        | Connect oa att => exact absurd rfl (hne1 p h oa att)
        | AcceptInboundConnect ic oa => exact absurd rfl (hne2 p h ic oa)
    | Dial opts hp => rfl
    | GenerateEvent e => rfl
  · intro addr hmem
    rcases List.mem_map.mp hmem with ⟨a, _, rfl⟩
    rw [List.getLast?_concat]

/-- Witness for C4: the front Connect notification is dequeued with its
obs_addrs filled at poll time. -/
theorem poll_dequeues_and_fills_witness :
    Behaviour.poll
        { queued_actions := [ Action.NotifyHandler 2 (NotifyHandlerTarget.One 3)
            (HandlerIn.Connect [] 1) ] }
        { external_addresses := [[Protocol.other 4]], local_peer_id := 9 } =
      (PollResult.Ready (Action.NotifyHandler 2 (NotifyHandlerTarget.One 3)
          (HandlerIn.Connect [[Protocol.other 4, Protocol.P2p 9]] 1)),
       { queued_actions := [] }) :=
  (poll_dequeues_and_fills
      { queued_actions := [ Action.NotifyHandler 2 (NotifyHandlerTarget.One 3)
          (HandlerIn.Connect [] 1) ] }
      { external_addresses := [[Protocol.other 4]], local_peer_id := 9 }).2.1
    2 (NotifyHandlerTarget.One 3) [] 1 [] rfl

/-- One callback preserves the attempt-range predicate on the queue, and a
polled-out action satisfies it too. -/
theorem stepCall_connect_range (b : Behaviour) (c : Call)
    (hb : ∀ a ∈ b.queued_actions, connectAttemptInRange a = true) :
    optionResultOK connectAttemptInRange (stepCall b c) := by
  cases c with
  | connectionEstablished p cid cp fa =>
      show ∀ a ∈ (b.inject_connection_established p cid cp fa).queued_actions,
        connectAttemptInRange a = true
      cases cp with
      | Dialer addr => exact hb
      | Listener la sba =>
          unfold Behaviour.inject_connection_established
          by_cases hany : la.any (fun q => q = Protocol.P2pCircuit) = true
          · simp only [hany, if_true]
            intro a ha
            rcases List.mem_append.mp ha with h | h
            · exact hb a h
            · simp only [List.mem_cons, List.not_mem_nil, or_false] at h
              rcases h with rfl | rfl <;> rfl
          · simp only [Bool.not_eq_true] at hany
            simp only [hany, Bool.false_eq_true, if_false]
            exact hb
  | dialFailure pid h err =>
      cases h with
      | UnknownConnection => exact hb
      | UnknownRelayedConnection => exact hb
      | RelayedConnection r => exact hb
      | DirectConnection r =>
          cases r with
          | Listener => exact hb
          | Initiator attempt rcid =>
              cases pid with
              | none => trivial
              | some p =>
                  by_cases hlt : attempt < 3
                  · show optionResultOK connectAttemptInRange
                      ((b.inject_dial_failure (some p)
                        (Prototype.DirectConnection (Role.Initiator attempt rcid))
                        err).map (fun b' => (b', none)))
                    simp only [Behaviour.inject_dial_failure, hlt, if_true,
                      Option.map_some']
                    intro a ha
                    rcases List.mem_append.mp ha with hm | hm
                    · exact hb a hm
                    · simp only [List.mem_cons, List.not_mem_nil, or_false] at hm
                      subst hm
                      simp only [connectAttemptInRange, Bool.and_eq_true,
                        decide_eq_true_eq]
                      omega
                  · show optionResultOK connectAttemptInRange
                      ((b.inject_dial_failure (some p)
                        (Prototype.DirectConnection (Role.Initiator attempt rcid))
                        err).map (fun b' => (b', none)))
                    simp only [Behaviour.inject_dial_failure, hlt, if_false]
                    intro a ha
                    rcases List.mem_append.mp ha with hm | hm
                    · exact hb a hm
                    · simp only [List.mem_cons, List.not_mem_nil, or_false] at hm
                      subst hm
                      rfl
  | handlerEvent es conn ev =>
      show ∀ a ∈ (b.inject_event es conn ev).queued_actions,
        connectAttemptInRange a = true
      cases ev with
      | InboundConnectReq ic ra =>
          intro a ha
          rcases List.mem_append.mp ha with hm | hm
          · exact hb a hm
          · simp only [List.mem_cons, List.not_mem_nil, or_false] at hm
            rcases hm with rfl | rfl <;> rfl
      | InboundConnectNeg addrs =>
          intro a ha
          rcases List.mem_append.mp ha with hm | hm
          · exact hb a hm
          · simp only [List.mem_cons, List.not_mem_nil, or_false] at hm
            subst hm
            rfl
      | OutboundConnectNeg addrs attempt =>
          intro a ha
          rcases List.mem_append.mp ha with hm | hm
          · exact hb a hm
          · simp only [List.mem_cons, List.not_mem_nil, or_false] at hm
            subst hm
            rfl
  | connected p => exact hb
  | disconnected p => trivial
  | connectionClosed p cid cp => trivial
  | pollBehaviour pp =>
      obtain ⟨q⟩ := b
      cases q with
      | nil => exact hb
      | cons a rest =>
          have hrest : ∀ x ∈ rest, connectAttemptInRange x = true :=
            fun x hx => hb x (List.mem_cons_of_mem _ hx)
          have hhead : connectAttemptInRange a = true :=
            hb a (List.mem_cons_self _ _)
          cases a with
          | NotifyHandler p h hin =>
              cases hin with
              | Connect oa att => exact ⟨hrest, hhead⟩
              | AcceptInboundConnect ic oa => exact ⟨hrest, rfl⟩
          | Dial opts hp => exact ⟨hrest, hhead⟩
          | GenerateEvent e => exact ⟨hrest, hhead⟩

/-- Running any callback sequence preserves the attempt-range predicate on
the queue and on every polled-out action. -/
theorem runCalls_connect_range (cs : List Call) :
    ∀ b : Behaviour,
      (∀ a ∈ b.queued_actions, connectAttemptInRange a = true) →
      ∀ bf outs, runCalls b cs = some (bf, outs) →
        (∀ a ∈ bf.queued_actions, connectAttemptInRange a = true) ∧
        (∀ a ∈ outs, connectAttemptInRange a = true) := by
  induction cs with
  | nil =>
      intro b hb bf outs hr
      simp only [runCalls, Option.some.injEq, Prod.mk.injEq] at hr
      obtain ⟨h1, h2⟩ := hr
      subst h1
      subst h2
      exact ⟨hb, by simp⟩
  | cons c cs ih =>
      intro b hb bf outs hr
      have hok := stepCall_connect_range b c hb
      rw [runCalls] at hr
      split at hr
      · simp at hr
      next b' oa hsc =>
          rw [hsc] at hok
          split at hr
          · simp at hr
          next bf' outs' hrc =>
              simp only [Option.some.injEq, Prod.mk.injEq] at hr
              obtain ⟨hbf, houts⟩ := hr
              subst hbf
              subst houts
              cases oa with
              | none =>
                  have hrec := ih b' hok bf' outs' hrc
                  exact ⟨hrec.1, by simpa using hrec.2⟩
              | some out =>
                  have hrec := ih b' hok.1 bf' outs' hrc
                  refine ⟨hrec.1, ?_⟩
                  intro a ha
                  simp only [Option.toList_some, List.singleton_append,
                    List.mem_cons] at ha
                  rcases ha with rfl | ha
                  · exact hok.2
                  · exact hrec.2 a ha

/-- C3: over every callback sequence from a fresh behaviour, every
`Connect` notification — still queued or already returned by `poll` — has
an attempt number in `[1, 3]`: the initial notification uses attempt 1 and
a retry with `attempt + 1` is only enqueued when `attempt < 3`. -/
theorem connect_attempt_in_range (cs : List Call) (bf : Behaviour)
    (outs : List Action)
    (hr : runCalls Behaviour.new cs = some (bf, outs)) :
    ∀ pe h oa att,
      (Action.NotifyHandler pe h (HandlerIn.Connect oa att) ∈
          bf.queued_actions ∨
       Action.NotifyHandler pe h (HandlerIn.Connect oa att) ∈ outs) →
      1 ≤ att ∧ att ≤ 3 := by
  have hmain := runCalls_connect_range cs Behaviour.new
    (by intro a ha; exact absurd ha (List.not_mem_nil a)) bf outs hr
  intro pe h oa att hmem
  have hP : connectAttemptInRange
      (Action.NotifyHandler pe h (HandlerIn.Connect oa att)) = true := by
    rcases hmem with hm | hm
    · exact hmain.1 _ hm
    · exact hmain.2 _ hm
  simpa [connectAttemptInRange, Bool.and_eq_true, decide_eq_true_eq] using hP

/-- Witness for C3 on a one-call trace that enqueues a Connect. -/
theorem connect_attempt_in_range_witness : 1 ≤ 1 ∧ 1 ≤ 3 :=
  connect_attempt_in_range
    [Call.connectionEstablished 1 2
      (ConnectedPoint.Listener [Protocol.P2pCircuit] []) none]
    { queued_actions :=
        [ Action.NotifyHandler 1 (NotifyHandlerTarget.One 2)
            (HandlerIn.Connect [] 1),
          Action.GenerateEvent
            (Event.InitiateDirectConnectionUpgrade 1 [Protocol.P2pCircuit]) ] }
    [] rfl 1 (NotifyHandlerTarget.One 2) [] 1 (Or.inl (by simp))

/-- One callback never enqueues or returns the
`DirectConnectionUpgradeSucceeded` event. -/
theorem stepCall_no_succeeded (b : Behaviour) (c : Call)
    (hb : ∀ a ∈ b.queued_actions, (!isUpgradeSucceeded a) = true) :
    optionResultOK (fun a => !isUpgradeSucceeded a) (stepCall b c) := by
  cases c with
  | connectionEstablished p cid cp fa =>
      show ∀ a ∈ (b.inject_connection_established p cid cp fa).queued_actions,
        (!isUpgradeSucceeded a) = true
      cases cp with
      | Dialer addr => exact hb
      | Listener la sba =>
          unfold Behaviour.inject_connection_established
          by_cases hany : la.any (fun q => q = Protocol.P2pCircuit) = true
          · simp only [hany, if_true]
            intro a ha
            rcases List.mem_append.mp ha with h | h
            · exact hb a h
            · simp only [List.mem_cons, List.not_mem_nil, or_false] at h
              rcases h with rfl | rfl <;> rfl
          · simp only [Bool.not_eq_true] at hany
            simp only [hany, Bool.false_eq_true, if_false]
            exact hb
  | dialFailure pid h err =>
      cases h with
      | UnknownConnection => exact hb
      | UnknownRelayedConnection => exact hb
      | RelayedConnection r => exact hb
      | DirectConnection r =>
          cases r with
          | Listener => exact hb
          | Initiator attempt rcid =>
              cases pid with
              | none => trivial
              | some p =>
                  by_cases hlt : attempt < 3
                  · show optionResultOK (fun a => !isUpgradeSucceeded a)
                      ((b.inject_dial_failure (some p)
                        (Prototype.DirectConnection (Role.Initiator attempt rcid))
                        err).map (fun b' => (b', none)))
                    simp only [Behaviour.inject_dial_failure, hlt, if_true,
                      Option.map_some']
                    intro a ha
                    rcases List.mem_append.mp ha with hm | hm
                    · exact hb a hm
                    · simp only [List.mem_cons, List.not_mem_nil, or_false] at hm
                      subst hm
                      rfl
                  · show optionResultOK (fun a => !isUpgradeSucceeded a)
                      ((b.inject_dial_failure (some p)
                        (Prototype.DirectConnection (Role.Initiator attempt rcid))
                        err).map (fun b' => (b', none)))
                    simp only [Behaviour.inject_dial_failure, hlt, if_false]
                    intro a ha
                    rcases List.mem_append.mp ha with hm | hm
                    · exact hb a hm
                    · simp only [List.mem_cons, List.not_mem_nil, or_false] at hm
                      subst hm
                      rfl
  | handlerEvent es conn ev =>
      show ∀ a ∈ (b.inject_event es conn ev).queued_actions,
        (!isUpgradeSucceeded a) = true
      cases ev with
      | InboundConnectReq ic ra =>
          intro a ha
          rcases List.mem_append.mp ha with hm | hm
          · exact hb a hm
          · simp only [List.mem_cons, List.not_mem_nil, or_false] at hm
            rcases hm with rfl | rfl <;> rfl
      | InboundConnectNeg addrs =>
          intro a ha
          rcases List.mem_append.mp ha with hm | hm
          · exact hb a hm
          · simp only [List.mem_cons, List.not_mem_nil, or_false] at hm
            subst hm
            rfl
      | OutboundConnectNeg addrs attempt =>
          intro a ha
          rcases List.mem_append.mp ha with hm | hm
          · exact hb a hm
          · simp only [List.mem_cons, List.not_mem_nil, or_false] at hm
            subst hm
            rfl
  | connected p => exact hb
  | disconnected p => trivial
  | connectionClosed p cid cp => trivial
  | pollBehaviour pp =>
      obtain ⟨q⟩ := b
      cases q with
      | nil => exact hb
      | cons a rest =>
          have hrest : ∀ x ∈ rest, (!isUpgradeSucceeded x) = true :=
            fun x hx => hb x (List.mem_cons_of_mem _ hx)
          have hhead : (!isUpgradeSucceeded a) = true :=
            hb a (List.mem_cons_self _ _)
          cases a with
          | NotifyHandler p h hin =>
              cases hin with
              | Connect oa att => exact ⟨hrest, rfl⟩
              | AcceptInboundConnect ic oa => exact ⟨hrest, rfl⟩
          | Dial opts hp => exact ⟨hrest, hhead⟩
          | GenerateEvent e => exact ⟨hrest, hhead⟩

/-- Running any callback sequence never puts the
`DirectConnectionUpgradeSucceeded` event in the queue or in the output. -/
theorem runCalls_no_succeeded (cs : List Call) :
    ∀ b : Behaviour,
      (∀ a ∈ b.queued_actions, (!isUpgradeSucceeded a) = true) →
      ∀ bf outs, runCalls b cs = some (bf, outs) →
        (∀ a ∈ bf.queued_actions, (!isUpgradeSucceeded a) = true) ∧
        (∀ a ∈ outs, (!isUpgradeSucceeded a) = true) := by
  induction cs with
  | nil =>
      intro b hb bf outs hr
      simp only [runCalls, Option.some.injEq, Prod.mk.injEq] at hr
      obtain ⟨h1, h2⟩ := hr
      subst h1
      subst h2
      exact ⟨hb, by simp⟩
  | cons c cs ih =>
      intro b hb bf outs hr
      have hok := stepCall_no_succeeded b c hb
      rw [runCalls] at hr
      split at hr
      · simp at hr
      next b' oa hsc =>
          rw [hsc] at hok
          split at hr
          · simp at hr
          next bf' outs' hrc =>
              simp only [Option.some.injEq, Prod.mk.injEq] at hr
              obtain ⟨hbf, houts⟩ := hr
              subst hbf
              subst houts
              cases oa with
              | none =>
                  have hrec := ih b' hok bf' outs' hrc
                  exact ⟨hrec.1, by simpa using hrec.2⟩
              | some out =>
                  have hrec := ih b' hok.1 bf' outs' hrc
                  refine ⟨hrec.1, ?_⟩
                  intro a ha
                  simp only [Option.toList_some, List.singleton_append,
                    List.mem_cons] at ha
                  rcases ha with rfl | ha
                  · exact hok.2
                  · exact hrec.2 a ha

/-- C9: over every callback sequence from a fresh behaviour, no queued or
returned action is `GenerateEvent DirectConnectionUpgradeSucceeded`; the
variant is declared but unreachable as an output of the behaviour. -/
theorem never_emits_upgrade_succeeded (cs : List Call) (bf : Behaviour)
    (outs : List Action)
    (hr : runCalls Behaviour.new cs = some (bf, outs)) :
    ∀ a, (a ∈ bf.queued_actions ∨ a ∈ outs) →
      a ≠ Action.GenerateEvent Event.DirectConnectionUpgradeSucceeded := by
  have hmain := runCalls_no_succeeded cs Behaviour.new
    (by intro a ha; exact absurd ha (List.not_mem_nil a)) bf outs hr
  intro a hmem heq
  subst heq
  have hP : (!isUpgradeSucceeded
      (Action.GenerateEvent Event.DirectConnectionUpgradeSucceeded)) = true := by
    rcases hmem with hm | hm
    · exact hmain.1 _ hm
    · exact hmain.2 _ hm
  simp [isUpgradeSucceeded] at hP

/-- Witness for C9 on a one-call trace that enqueues a Dial. -/
theorem never_emits_upgrade_succeeded_witness :
    Action.Dial
        { peer_id := 3, addresses := [[Protocol.other 1]],
          condition := PeerCondition.Always }
        (Prototype.DirectConnection Role.Listener) ≠
      Action.GenerateEvent Event.DirectConnectionUpgradeSucceeded :=
  never_emits_upgrade_succeeded
    [Call.handlerEvent 3 4 (HandlerEvent.InboundConnectNeg [[Protocol.other 1]])]
    { queued_actions :=
        [ Action.Dial
            { peer_id := 3, addresses := [[Protocol.other 1]],
              condition := PeerCondition.Always }
            (Prototype.DirectConnection Role.Listener) ] }
    [] rfl _ (Or.inl (by simp))

end Dcutr
